import Mathlib

/-!
Shallow embedding of the Sui checkpoint-execution pipeline
(`crates/sui-core/src/checkpoints/checkpoint_executor/mod.rs`) and of the
quorum driver (`crates/sui-quorum-driver/src/lib.rs`), together with proofs
of the specification claims about them.

Conventions:
* `u64` sequence numbers (`CheckpointSequenceNumber`) and epoch
  identifiers (`EpochId`) are embedded as `Nat`
  (the executor only ever adds 1 to a watermark; overflow is immaterial to
  the claims and `u64` arithmetic on these values never wraps in the code's
  reachable states).
* Fatal conditions (`assert!`, `assert_eq!`, `panic!`, `unwrap` on a missing
  value) are embedded as `none` of an `Option`-valued result.
* Fallible calls (`SuiResult`) are embedded with `Except`.
-/

namespace Sui

/-- Per-epoch validator set, following `sui_types/src/committee.rs`:
`Committee::new` records the epoch and the voting rights and derives
`total_votes` as the sum of all voting rights. Authority names are
embedded as `Nat`. -/
structure Committee where
  epoch : Nat
  voting_rights : List (Nat × Nat)
  total_votes : Nat
  deriving Repr, DecidableEq

/-- Constructor `Committee::new` from `sui_types/src/committee.rs`. -/
def Committee.new (epoch : Nat) (voting_rights : List (Nat × Nat)) : Committee :=
  { epoch := epoch
    voting_rights := voting_rights
    total_votes := (voting_rights.map Prod.snd).sum }

/-- The fields of a certified checkpoint that the executor reads
(spec section 3: sequence number, epoch, content digest, and the optional
next-epoch committee of the summary). Immutable value. -/
structure VerifiedCheckpoint where
  sequence_number : Nat
  epoch : Nat
  content_digest : Nat
  next_epoch_committee : Option (List (Nat × Nat))
  deriving Repr, DecidableEq

/-- The durable checkpoint store as seen by the executor: the two
watermarks and checkpoint lookup by sequence number
(spec section 6, consumed storage operations). -/
structure CheckpointStore where
  highest_executed : Option VerifiedCheckpoint
  highest_synced : Option VerifiedCheckpoint
  by_sequence_number : Nat → Option VerifiedCheckpoint

def get_highest_executed_checkpoint (store : CheckpointStore) :
    Option VerifiedCheckpoint :=
  store.highest_executed

def get_highest_executed_checkpoint_seq_number (store : CheckpointStore) :
    Option Nat :=
  store.highest_executed.map VerifiedCheckpoint.sequence_number

def get_highest_synced_checkpoint (store : CheckpointStore) :
    Option VerifiedCheckpoint :=
  store.highest_synced

def get_checkpoint_by_sequence_number (store : CheckpointStore)
    (seq : Nat) : Option VerifiedCheckpoint :=
  store.by_sequence_number seq

def update_highest_executed_checkpoint (store : CheckpointStore)
    (checkpoint : VerifiedCheckpoint) : CheckpointStore :=
  { store with highest_executed := some checkpoint }

/-- `CheckpointExecutor::finished_executing_checkpoint`
(mod.rs lines 158-176): read the persisted highest-executed sequence
number; `assert_eq!(prev_highest + 1, seq)` when a watermark exists,
`assert_eq!(seq, 0)` otherwise; then durably update the watermark.
An assertion failure is the `none` case. -/
def finished_executing_checkpoint (store : CheckpointStore)
    (checkpoint : VerifiedCheckpoint) : Option CheckpointStore :=
  let seq := checkpoint.sequence_number
  match get_highest_executed_checkpoint_seq_number store with
  | some prev_highest =>
      if prev_highest + 1 = seq then
        some (update_highest_executed_checkpoint store checkpoint)
      else
        none
  | none =>
      if seq = 0 then
        some (update_highest_executed_checkpoint store checkpoint)
      else
        none

/-- The sequence number the executor will accept next: the persisted
watermark plus one, or 0 when nothing has been executed. -/
def expected_next_seq (store : CheckpointStore) : Nat :=
  match get_highest_executed_checkpoint_seq_number store with
  | some prev_highest => prev_highest + 1
  | none => 0

/-- Outcome of one receive on the synced-checkpoint broadcast channel
(`tokio::sync::broadcast::error::RecvError`). -/
inductive RecvOutcome
  | Ok (checkpoint : VerifiedCheckpoint)
  | Lagged (num_skipped : Nat)
  | Closed
  deriving Repr, DecidableEq

/-- The executor metrics touched by the embedded code paths. -/
structure ExecutorMetrics where
  checkpoint_exec_recv_channel_overflow : Nat
  checkpoint_exec_errors : Nat
  deriving Repr, DecidableEq

/-- `CheckpointExecutor::checkpoint_received` (mod.rs lines 178-201):
`Ok` only logs; `Lagged(n)` logs and increments the overflow counter by
`n`; `Closed` panics (the `none` case). -/
def checkpoint_received (metrics : ExecutorMetrics) (received : RecvOutcome) :
    Option ExecutorMetrics :=
  match received with
  | .Ok _ => some metrics
  | .Lagged num_skipped =>
      some { metrics with
        checkpoint_exec_recv_channel_overflow :=
          metrics.checkpoint_exec_recv_channel_overflow + num_skipped }
  | .Closed => none

/-- `check_epoch_last_checkpoint` (mod.rs lines 298-319): the epoch is
over exactly when the given (most recently executed) checkpoint belongs
to the current epoch and carries a next-epoch committee; the returned
committee is built for `cur_epoch + 1`. -/
def check_epoch_last_checkpoint (cur_epoch : Nat)
    (checkpoint : Option VerifiedCheckpoint) : Option Committee :=
  match checkpoint with
  | some checkpoint =>
      if checkpoint.epoch = cur_epoch then
        match checkpoint.next_epoch_committee with
        | some next_committee => some (Committee.new (cur_epoch + 1) next_committee)
        | none => none
      else
        none
  | none => none

/-- The in-memory loop state of `CheckpointExecutor::run_epoch`
(mod.rs lines 110-121): the cached highest-executed checkpoint, the
scheduling cursor, the FIFO pending-execution buffer (`FuturesOrdered`,
whose entries resolve with the scheduled checkpoint because the per-task
retry loop never gives up), and the `no_more_scheduling` flag. -/
structure RunState where
  highest_executed : Option VerifiedCheckpoint
  next_to_schedule : Nat
  pending : List VerifiedCheckpoint
  no_more_scheduling : Bool
  deriving Repr, DecidableEq

/-- The `while` loop of `CheckpointExecutor::schedule_synced_checkpoints`
(mod.rs lines 217-236): while the cursor is at most the highest-synced
sequence number and the buffer is below `checkpoint_execution_max_concurrency`,
look up the next checkpoint (a missing entry panics), stop with `true`
when it belongs to a later epoch, otherwise run `schedule_checkpoint`
(mod.rs lines 241-295), whose `assert_eq!` on the epoch panics when the
checkpoint belongs to an earlier epoch and which pushes the execution
task onto the FIFO buffer; finally return `false`. -/
def scheduleLoop (store : CheckpointStore) (cur_epoch : Nat)
    (max_concurrency : Nat) (latest_seq : Nat)
    (next : Nat) (pending : List VerifiedCheckpoint) :
    Option (Nat × List VerifiedCheckpoint × Bool) :=
  if h : next ≤ latest_seq then
    if pending.length < max_concurrency then
      match get_checkpoint_by_sequence_number store next with
      | none => none
      | some checkpoint =>
          if checkpoint.epoch > cur_epoch then
            some (next, pending, true)
          else if checkpoint.epoch = cur_epoch then
            scheduleLoop store cur_epoch max_concurrency latest_seq (next + 1)
              (pending ++ [checkpoint])
          else
            none
    else
      some (next, pending, false)
  else
    some (next, pending, false)
  termination_by latest_seq + 1 - next
  decreasing_by
    simp_wf
    omega

/-- `CheckpointExecutor::schedule_synced_checkpoints`
(mod.rs lines 204-239): read the highest-synced checkpoint; when none
exists return `false` without scheduling, otherwise run the scheduling
loop bounded by its sequence number. -/
def schedule_synced_checkpoints (store : CheckpointStore) (cur_epoch : Nat)
    (max_concurrency : Nat) (next : Nat)
    (pending : List VerifiedCheckpoint) :
    Option (Nat × List VerifiedCheckpoint × Bool) :=
  match get_highest_synced_checkpoint store with
  | none => some (next, pending, false)
  | some latest_synced_checkpoint =>
      scheduleLoop store cur_epoch max_concurrency
        latest_synced_checkpoint.sequence_number next pending

/-- One of the two events the `tokio::select!` of `run_epoch` can observe:
completion of the oldest in-flight task, or a message on the synced
checkpoint mailbox. -/
inductive LoopEvent
  | completed
  | received (outcome : RecvOutcome)
  deriving Repr, DecidableEq

/-- Result of one iteration of the `run_epoch` loop: return with the next
committee, continue with updated state, or die on a fatal condition
(failed assertion / panic; a `completed` event with an empty buffer is
also mapped here, although the `select!` pattern makes it unreachable). -/
inductive StepOutcome
  | done (committee : Committee) (store : CheckpointStore)
  | next (st : RunState) (store : CheckpointStore) (metrics : ExecutorMetrics)
  | fatal

/-- One iteration of the `loop` in `CheckpointExecutor::run_epoch`
(mod.rs lines 122-155): first the end-of-epoch check with its
`assert!(pending.is_empty())`, then (unless `no_more_scheduling`)
scheduling of synced checkpoints, then the `select!` race, embedded by
taking the observed event as an argument. -/
def run_epoch_step (cur_epoch : Nat) (max_concurrency : Nat)
    (ev : LoopEvent) (store : CheckpointStore) (st : RunState)
    (metrics : ExecutorMetrics) : StepOutcome :=
  match check_epoch_last_checkpoint cur_epoch st.highest_executed with
  | some next_epoch_committee =>
      if st.pending.isEmpty then
        .done next_epoch_committee store
      else
        .fatal
  | none =>
      let sched :=
        if ¬ st.no_more_scheduling then
          schedule_synced_checkpoints store cur_epoch max_concurrency
            st.next_to_schedule st.pending
        else
          some (st.next_to_schedule, st.pending, st.no_more_scheduling)
      match sched with
      | none => .fatal
      | some (next', pending', nms') =>
          match ev with
          | .completed =>
              match pending' with
              | [] => .fatal
              | checkpoint :: rest =>
                  match finished_executing_checkpoint store checkpoint with
                  | none => .fatal
                  | some store' =>
                      .next ⟨some checkpoint, next', rest, nms'⟩ store' metrics
          | .received outcome =>
              match checkpoint_received metrics outcome with
              | none => .fatal
              | some metrics' =>
                  .next ⟨st.highest_executed, next', pending', nms'⟩ store metrics'

/-- The initialization of `run_epoch` (mod.rs lines 107-121): read the
persisted highest-executed checkpoint, seed `next_to_schedule` with its
sequence number plus one (`unwrap_or_default`, i.e. 0, when none), start
with an empty pending buffer and scheduling enabled. -/
def run_epoch_init (store : CheckpointStore) : RunState :=
  { highest_executed := get_highest_executed_checkpoint store
    next_to_schedule :=
      match get_highest_executed_checkpoint store with
      | some c => c.sequence_number + 1
      | none => 0
    pending := []
    no_more_scheduling := false }

/-! Theorems. -/


theorem check_epoch_last_checkpoint_eq_some (cur_epoch : Nat)
    (checkpoint : Option VerifiedCheckpoint) (committee : Committee) :
    check_epoch_last_checkpoint cur_epoch checkpoint = some committee ↔
      ∃ c members, checkpoint = some c ∧ c.epoch = cur_epoch ∧
        c.next_epoch_committee = some members ∧
        committee = Committee.new (cur_epoch + 1) members := by
  cases checkpoint with
  | none => simp [check_epoch_last_checkpoint]
  | some c =>
      by_cases h : c.epoch = cur_epoch
      · cases hm : c.next_epoch_committee with
        | none => simp [check_epoch_last_checkpoint, h, hm]
        | some members =>
            simp only [check_epoch_last_checkpoint, h, hm, if_true,
              Option.some.injEq]
            constructor
            · rintro rfl
              exact ⟨c, members, rfl, h, hm, rfl⟩
            · rintro ⟨c', members', hc', -, hm', rfl⟩
              cases hc'
              rw [hm] at hm'
              cases hm'
              rfl
      · simp only [check_epoch_last_checkpoint, h, if_false]
        constructor
        · intro hfalse
          cases hfalse
        · rintro ⟨c', members', hc', hep, -, -⟩
          cases hc'
          exact absurd hep h

/-- Claim C1: a checkpoint-completion event is accepted by
`finished_executing_checkpoint` exactly when its sequence number is the
persisted highest-executed watermark plus 1 (or 0 when no watermark
exists); any other value is the fatal assertion (the `none` branch), and
on acceptance the persisted watermark becomes exactly that value while
the rest of the store is untouched — the watermark only ever advances by
exactly one, never regresses, never skips. -/
theorem finished_executing_checkpoint_ratchet (store : CheckpointStore)
    (checkpoint : VerifiedCheckpoint) :
    ((finished_executing_checkpoint store checkpoint).isSome ↔
      checkpoint.sequence_number = expected_next_seq store) ∧
    (∀ store', finished_executing_checkpoint store checkpoint = some store' →
      get_highest_executed_checkpoint_seq_number store' =
          some (expected_next_seq store) ∧
      get_highest_executed_checkpoint store' = some checkpoint ∧
      store'.highest_synced = store.highest_synced ∧
      store'.by_sequence_number = store.by_sequence_number) := by
  constructor
  · cases ho : store.highest_executed with
    | none =>
        by_cases h : checkpoint.sequence_number = 0 <;>
          simp [finished_executing_checkpoint, expected_next_seq,
            get_highest_executed_checkpoint_seq_number, ho, h]
    | some prev =>
        by_cases h : prev.sequence_number + 1 = checkpoint.sequence_number
        · simp [finished_executing_checkpoint, expected_next_seq,
            get_highest_executed_checkpoint_seq_number, ho, h]
        · simp [finished_executing_checkpoint, expected_next_seq,
            get_highest_executed_checkpoint_seq_number, ho, h, Ne.symm h]
  · intro store' hstore'
    cases ho : store.highest_executed with
    | none =>
        by_cases h : checkpoint.sequence_number = 0
        · simp only [finished_executing_checkpoint,
            get_highest_executed_checkpoint_seq_number, ho, Option.map_none',
            h, if_true, Option.some.injEq] at hstore'
          subst hstore'
          refine ⟨?_, rfl, rfl, rfl⟩
          simp [get_highest_executed_checkpoint_seq_number,
            update_highest_executed_checkpoint, expected_next_seq, ho, h]
        · simp [finished_executing_checkpoint,
            get_highest_executed_checkpoint_seq_number, ho, h] at hstore'
    | some prev =>
        by_cases h : prev.sequence_number + 1 = checkpoint.sequence_number
        · simp only [finished_executing_checkpoint,
            get_highest_executed_checkpoint_seq_number, ho, Option.map_some',
            h, if_true, Option.some.injEq] at hstore'
          subst hstore'
          refine ⟨?_, rfl, rfl, rfl⟩
          simp [get_highest_executed_checkpoint_seq_number,
            update_highest_executed_checkpoint, expected_next_seq, ho, h]
        · simp [finished_executing_checkpoint,
            get_highest_executed_checkpoint_seq_number, ho, h] at hstore'

/-- Concrete store used by the witness of claim C1. -/
def c1Store : CheckpointStore :=
  { highest_executed := some ⟨4, 0, 4, none⟩
    highest_synced := none
    by_sequence_number := fun _ => none }

theorem finished_executing_checkpoint_ratchet_witness :
    get_highest_executed_checkpoint_seq_number
        (update_highest_executed_checkpoint c1Store ⟨5, 0, 5, none⟩) =
      some (expected_next_seq c1Store) :=
  ((finished_executing_checkpoint_ratchet c1Store ⟨5, 0, 5, none⟩).2 _ rfl).1

/-- Claim C8: on the synced-checkpoint broadcast channel, an `Ok` receipt
changes nothing, a `Lagged(n)` receipt is non-fatal and only increments
the overflow counter by `n`, a `Closed` receipt panics; and at the
`run_epoch` level the received branch never modifies the durable store,
never modifies the cached watermark, and produces a scheduling state that
is independent of which (non-fatal) notification was received —
correctness is re-derived from persisted watermarks, not from
notification payloads. -/
theorem checkpoint_received_spec (metrics : ExecutorMetrics) :
    (∀ c, checkpoint_received metrics (.Ok c) = some metrics) ∧
    (∀ n, checkpoint_received metrics (.Lagged n) =
      some { metrics with checkpoint_exec_recv_channel_overflow :=
               metrics.checkpoint_exec_recv_channel_overflow + n }) ∧
    checkpoint_received metrics .Closed = none ∧
    (∀ cur_epoch max_concurrency r₁ r₂ store st m₂ st₁ store₁ m₁' st₂ store₂ m₂',
      run_epoch_step cur_epoch max_concurrency (.received r₁) store st metrics =
          .next st₁ store₁ m₁' →
      run_epoch_step cur_epoch max_concurrency (.received r₂) store st m₂ =
          .next st₂ store₂ m₂' →
      store₁ = store ∧ st₁.highest_executed = st.highest_executed ∧
      st₁ = st₂ ∧ store₂ = store) := by
  refine ⟨fun c => rfl, fun n => rfl, rfl, ?_⟩
  intro cur_epoch max_concurrency r₁ r₂ store st m₂ st₁ store₁ m₁' st₂ store₂ m₂' h₁ h₂
  cases hc : check_epoch_last_checkpoint cur_epoch st.highest_executed with
  | some c =>
      simp only [run_epoch_step, hc] at h₁
      by_cases hp : st.pending.isEmpty <;> simp [hp] at h₁
  | none =>
      simp only [run_epoch_step, hc] at h₁ h₂
      cases hs : (if ¬ st.no_more_scheduling then
          schedule_synced_checkpoints store cur_epoch max_concurrency
            st.next_to_schedule st.pending
        else
          some (st.next_to_schedule, st.pending, st.no_more_scheduling)) with
      | none =>
          simp only [hs] at h₁
          exact StepOutcome.noConfusion h₁
      | some out =>
          obtain ⟨next', pending', nms'⟩ := out
          simp only [hs] at h₁ h₂
          cases hr₁ : checkpoint_received metrics r₁ with
          | none =>
              simp only [hr₁] at h₁
              exact StepOutcome.noConfusion h₁
          | some mm₁ =>
              simp only [hr₁] at h₁
              cases hr₂ : checkpoint_received m₂ r₂ with
              | none =>
                  simp only [hr₂] at h₂
                  exact StepOutcome.noConfusion h₂
              | some mm₂ =>
                  simp only [hr₂] at h₂
                  cases h₁
                  cases h₂
                  exact ⟨rfl, rfl, rfl, rfl⟩

theorem checkpoint_received_spec_witness :
    checkpoint_received ⟨3, 0⟩ (.Lagged 7) = some ⟨10, 0⟩ ∧
    checkpoint_received ⟨3, 0⟩ .Closed = none := by
  have h := checkpoint_received_spec ⟨3, 0⟩
  exact ⟨h.2.1 7, h.2.2.1⟩

/-- Claim C2, helper: when the end-of-epoch check is negative, an
iteration of the `run_epoch` loop never returns. -/
theorem run_epoch_step_not_done (cur_epoch max_concurrency : Nat)
    (ev : LoopEvent) (store : CheckpointStore) (st : RunState)
    (metrics : ExecutorMetrics) (committee : Committee) (store' : CheckpointStore)
    (hc : check_epoch_last_checkpoint cur_epoch st.highest_executed = none) :
    run_epoch_step cur_epoch max_concurrency ev store st metrics ≠
      .done committee store' := by
  intro hdone
  simp only [run_epoch_step, hc] at hdone
  cases hs : (if ¬ st.no_more_scheduling then
      schedule_synced_checkpoints store cur_epoch max_concurrency
        st.next_to_schedule st.pending
    else
      some (st.next_to_schedule, st.pending, st.no_more_scheduling)) with
  | none =>
      simp only [hs] at hdone
      exact StepOutcome.noConfusion hdone
  | some out =>
      obtain ⟨next', pending', nms'⟩ := out
      simp only [hs] at hdone
      cases ev with
      | completed =>
          cases pending' with
          | nil => exact StepOutcome.noConfusion hdone
          | cons c rest =>
              cases hfe : finished_executing_checkpoint store c with
              | none =>
                  simp only [hfe] at hdone
                  exact StepOutcome.noConfusion hdone
              | some store'' =>
                  simp only [hfe] at hdone
                  exact StepOutcome.noConfusion hdone
      | received r =>
          cases hr : checkpoint_received metrics r with
          | none =>
              simp only [hr] at hdone
              exact StepOutcome.noConfusion hdone
          | some m' =>
              simp only [hr] at hdone
              exact StepOutcome.noConfusion hdone

/-- Claim C2: one iteration of the `run_epoch` loop returns (signaling
epoch completion) exactly when the most recently completed checkpoint's
epoch equals the current epoch, that checkpoint carries a populated
next-epoch-committee field, and the pending buffer is empty — the value
returned being the committee built for `cur_epoch + 1`; and whenever the
end-of-epoch condition holds with a non-empty pending buffer, the
iteration is the fatal assertion, not a retryable continuation. -/
theorem run_epoch_step_epoch_termination (cur_epoch max_concurrency : Nat)
    (ev : LoopEvent) (store : CheckpointStore) (st : RunState)
    (metrics : ExecutorMetrics) :
    (∀ committee store',
      run_epoch_step cur_epoch max_concurrency ev store st metrics =
          .done committee store' ↔
        (store' = store ∧ st.pending = [] ∧
         ∃ ckpt members, st.highest_executed = some ckpt ∧
           ckpt.epoch = cur_epoch ∧
           ckpt.next_epoch_committee = some members ∧
           committee = Committee.new (cur_epoch + 1) members)) ∧
    (check_epoch_last_checkpoint cur_epoch st.highest_executed ≠ none →
      st.pending ≠ [] →
      run_epoch_step cur_epoch max_concurrency ev store st metrics = .fatal) := by
  constructor
  · intro committee store'
    cases hc : check_epoch_last_checkpoint cur_epoch st.highest_executed with
    | some c =>
        have hex := (check_epoch_last_checkpoint_eq_some cur_epoch
          st.highest_executed c).1 hc
        by_cases hp : st.pending.isEmpty
        · simp only [run_epoch_step, hc, hp, if_true]
          constructor
          · intro hdone
            cases hdone
            exact ⟨rfl, List.isEmpty_iff.mp hp, hex⟩
          · rintro ⟨rfl, -, hex'⟩
            obtain ⟨ckpt, members, hhe, hep, hnc, rfl⟩ := hex'
            obtain ⟨ckpt', members', hhe', hep', hnc', hcom'⟩ := hex
            rw [hhe] at hhe'
            cases hhe'
            rw [hnc] at hnc'
            cases hnc'
            rw [hcom']
        · simp only [run_epoch_step, hc, hp, if_false]
          constructor
          · intro hfalse
            exact StepOutcome.noConfusion hfalse
          · rintro ⟨-, hnil, -⟩
            exact absurd (List.isEmpty_iff.mpr hnil) hp
    | none =>
        constructor
        · intro hdone
          exact absurd hdone (run_epoch_step_not_done cur_epoch max_concurrency
            ev store st metrics committee store' hc)
        · rintro ⟨-, -, ckpt, members, hhe, hep, hnc, -⟩
          have hcs : check_epoch_last_checkpoint cur_epoch st.highest_executed =
              some (Committee.new (cur_epoch + 1) members) :=
            (check_epoch_last_checkpoint_eq_some _ _ _).2
              ⟨ckpt, members, hhe, hep, hnc, rfl⟩
          rw [hc] at hcs
          cases hcs
  · intro hsome hne
    cases hc : check_epoch_last_checkpoint cur_epoch st.highest_executed with
    | some c =>
        have hp : ¬ st.pending.isEmpty := fun hp => hne (List.isEmpty_iff.mp hp)
        simp [run_epoch_step, hc, hp]
    | none => exact absurd hc hsome

/-- Concrete run state used by the witness of claim C2: the epoch-final
checkpoint of epoch 3 has been executed and the buffer is empty. -/
def c2State : RunState :=
  { highest_executed := some ⟨9, 3, 9, some [(1, 1), (2, 1)]⟩
    next_to_schedule := 10
    pending := []
    no_more_scheduling := false }

theorem run_epoch_step_epoch_termination_witness :
    run_epoch_step 3 10 (.received (.Lagged 1)) c1Store c2State ⟨0, 0⟩ =
      .done (Committee.new 4 [(1, 1), (2, 1)]) c1Store := by
  refine ((run_epoch_step_epoch_termination 3 10 (.received (.Lagged 1))
    c1Store c2State ⟨0, 0⟩).1 _ _).2 ⟨rfl, rfl, ?_⟩
  exact ⟨⟨9, 3, 9, some [(1, 1), (2, 1)]⟩, [(1, 1), (2, 1)], rfl, rfl, rfl, rfl⟩


/-- Characterization of the scheduling loop: the cursor only moves
forward, the buffer length never exceeds the concurrency cap, the cursor
stays within one past the highest-synced sequence number, when the loop
exits without an epoch boundary it has either passed the synced watermark
or filled the buffer, and the newly pushed checkpoints are exactly the
store's checkpoints at the consecutive sequence numbers the cursor moved
over, all belonging to the current epoch. -/
theorem scheduleLoop_spec (store : CheckpointStore)
    (cur_epoch max_concurrency latest_seq : Nat) :
    ∀ next pending,
      pending.length ≤ max_concurrency →
      ∀ next' pending' nms',
        scheduleLoop store cur_epoch max_concurrency latest_seq next pending =
          some (next', pending', nms') →
        next ≤ next' ∧
        pending'.length ≤ max_concurrency ∧
        next' ≤ max next (latest_seq + 1) ∧
        (nms' = false → latest_seq < next' ∨ max_concurrency ≤ pending'.length) ∧
        ∃ newly, pending' = pending ++ newly ∧ newly.length = next' - next ∧
          ∀ i (hi : i < newly.length),
            get_checkpoint_by_sequence_number store (next + i) =
                some (newly.get ⟨i, hi⟩) ∧
            (newly.get ⟨i, hi⟩).epoch = cur_epoch := by
  intro next₀ pending₀
  induction next₀, pending₀ using
      scheduleLoop.induct store cur_epoch max_concurrency latest_seq with
  | case1 next pending h1 h2 hlook =>
      intro hlen next' pending' nms' hsched
      rw [scheduleLoop] at hsched
      simp only [dif_pos h1, if_pos h2, hlook] at hsched
      exact Option.noConfusion hsched
  | case2 next pending h1 h2 checkpoint hlook h3 =>
      intro hlen next' pending' nms' hsched
      rw [scheduleLoop] at hsched
      simp only [dif_pos h1, if_pos h2, hlook, if_pos h3, Option.some.injEq,
        Prod.mk.injEq] at hsched
      obtain ⟨rfl, rfl, rfl⟩ := hsched
      refine ⟨le_refl _, hlen, le_max_left _ _, fun hf => Bool.noConfusion hf,
        [], by simp, by simp, ?_⟩
      intro i hi
      simp at hi
  | case3 next pending h1 h2 checkpoint hlook h3 heq ih =>
      intro hlen next' pending' nms' hsched
      rw [scheduleLoop] at hsched
      simp only [dif_pos h1, if_pos h2, hlook, if_neg h3, if_pos heq] at hsched
      have hlen' : (pending ++ [checkpoint]).length ≤ max_concurrency := by
        simp only [List.length_append, List.length_singleton]
        omega
      obtain ⟨hle, hblen, hlat, hexit, newly₁, hsplit, hnlen, hidx⟩ :=
        ih hlen' next' pending' nms' hsched
      refine ⟨by omega, hblen, by omega, hexit,
        checkpoint :: newly₁, ?_, ?_, ?_⟩
      · rw [hsplit, List.append_assoc]
        rfl
      · simp only [List.length_cons, hnlen]
        omega
      · intro i hi
        cases i with
        | zero =>
            simp only [Nat.add_zero, List.get]
            exact ⟨hlook, heq⟩
        | succ j =>
            simp only [List.length_cons] at hi
            have hj : j < newly₁.length := by omega
            have harith : next + (j + 1) = next + 1 + j := by omega
            rw [harith]
            exact hidx j hj
  | case4 next pending h1 h2 checkpoint hlook h3 h4 =>
      intro hlen next' pending' nms' hsched
      rw [scheduleLoop] at hsched
      simp only [dif_pos h1, if_pos h2, hlook, if_neg h3, if_neg h4] at hsched
      exact Option.noConfusion hsched
  | case5 next pending h1 h2 =>
      intro hlen next' pending' nms' hsched
      rw [scheduleLoop] at hsched
      simp only [dif_pos h1, if_neg h2, Option.some.injEq, Prod.mk.injEq] at hsched
      obtain ⟨rfl, rfl, rfl⟩ := hsched
      refine ⟨le_refl _, hlen, le_max_left _ _,
        fun _ => Or.inr (Nat.le_of_not_lt h2), [], by simp, by simp, ?_⟩
      intro i hi
      simp at hi
  | case6 next pending h1 =>
      intro hlen next' pending' nms' hsched
      rw [scheduleLoop] at hsched
      simp only [dif_neg h1, Option.some.injEq, Prod.mk.injEq] at hsched
      obtain ⟨rfl, rfl, rfl⟩ := hsched
      refine ⟨le_refl _, hlen, le_max_left _ _,
        fun _ => Or.inl (Nat.lt_of_not_le h1), [], by simp, by simp, ?_⟩
      intro i hi
      simp at hi

/-- Characterization of `schedule_synced_checkpoints` on a store whose
by-sequence-number index is consistent: the buffer stays within the
concurrency cap and the newly scheduled checkpoints carry exactly the
consecutive sequence numbers from the cursor up to (at most) the
highest-synced watermark. -/
theorem schedule_synced_spec (store : CheckpointStore)
    (cur_epoch max_concurrency : Nat)
    (hwf : ∀ n c, store.by_sequence_number n = some c → c.sequence_number = n)
    (next : Nat) (pending : List VerifiedCheckpoint)
    (next' : Nat) (pending' : List VerifiedCheckpoint) (nms' : Bool)
    (hlen : pending.length ≤ max_concurrency)
    (hsched : schedule_synced_checkpoints store cur_epoch max_concurrency
      next pending = some (next', pending', nms')) :
    next ≤ next' ∧ pending'.length ≤ max_concurrency ∧
    ∃ newly, pending' = pending ++ newly ∧
      newly.map VerifiedCheckpoint.sequence_number =
          List.range' next (next' - next) ∧
      (∀ c ∈ newly, c.epoch = cur_epoch) ∧
      ∀ c ∈ newly, ∃ latest, get_highest_synced_checkpoint store = some latest ∧
        c.sequence_number ≤ latest.sequence_number := by
  unfold schedule_synced_checkpoints at hsched
  cases hsync : get_highest_synced_checkpoint store with
  | none =>
      rw [hsync] at hsched
      simp only [Option.some.injEq, Prod.mk.injEq] at hsched
      obtain ⟨rfl, rfl, rfl⟩ := hsched
      exact ⟨le_refl _, hlen, [], by simp, by simp, by simp, by simp⟩
  | some latest =>
      rw [hsync] at hsched
      obtain ⟨hle, hblen, hmax, -, newly, hsplit, hnlen, hidx⟩ :=
        scheduleLoop_spec store cur_epoch max_concurrency latest.sequence_number
          next pending hlen next' pending' nms' hsched
      have hseq : ∀ i (hi : i < newly.length),
          (newly.get ⟨i, hi⟩).sequence_number = next + i := fun i hi =>
        hwf (next + i) _ (hidx i hi).1
      refine ⟨hle, hblen, newly, hsplit, ?_, ?_, ?_⟩
      · apply List.ext_get
        · simp [hnlen]
        · intro i h1 h2
          simp only [List.get_map]
          rw [List.get_range', one_mul]
          exact hseq i (by simpa using h1)
      · intro c hc
        obtain ⟨⟨i, hi⟩, rfl⟩ := List.mem_iff_get.mp hc
        exact (hidx i hi).2
      · intro c hc
        obtain ⟨⟨i, hi⟩, rfl⟩ := List.mem_iff_get.mp hc
        refine ⟨latest, hsync ▸ rfl, ?_⟩
        rw [hseq i hi]
        have : i < next' - next := hnlen ▸ hi
        omega

/-- Claim C4: the pending buffer never exceeds the configured
`checkpoint_execution_max_concurrency` — the scheduling loop pushes a
task only while the buffer's length is strictly below the limit, so a
loop iteration preserves the bound — and the checkpoints scheduled by
`schedule_synced_checkpoints` carry ascending consecutive sequence
numbers starting at `next_to_schedule` and never beyond the
highest-synced watermark. -/
theorem checkpoint_scheduling_bounded_ordered (store : CheckpointStore)
    (cur_epoch max_concurrency : Nat)
    (hwf : ∀ n c, store.by_sequence_number n = some c → c.sequence_number = n) :
    (∀ ev st metrics st' store' metrics',
      st.pending.length ≤ max_concurrency →
      run_epoch_step cur_epoch max_concurrency ev store st metrics =
          .next st' store' metrics' →
      st'.pending.length ≤ max_concurrency) ∧
    (∀ next pending next' pending' nms',
      pending.length ≤ max_concurrency →
      schedule_synced_checkpoints store cur_epoch max_concurrency next pending =
        some (next', pending', nms') →
      next ≤ next' ∧ pending'.length ≤ max_concurrency ∧
      ∃ newly, pending' = pending ++ newly ∧
        newly.map VerifiedCheckpoint.sequence_number =
            List.range' next (next' - next) ∧
        ∀ c ∈ newly, ∃ latest,
          get_highest_synced_checkpoint store = some latest ∧
          c.sequence_number ≤ latest.sequence_number) := by
  constructor
  · intro ev st metrics st' store' metrics' hlen h
    cases hc : check_epoch_last_checkpoint cur_epoch st.highest_executed with
    | some c =>
        simp only [run_epoch_step, hc] at h
        by_cases hp : st.pending.isEmpty <;> simp only [hp, if_true, if_false] at h <;>
          exact StepOutcome.noConfusion h
    | none =>
        simp only [run_epoch_step, hc] at h
        cases hs : (if ¬ st.no_more_scheduling then
            schedule_synced_checkpoints store cur_epoch max_concurrency
              st.next_to_schedule st.pending
          else
            some (st.next_to_schedule, st.pending, st.no_more_scheduling)) with
        | none =>
            simp only [hs] at h
            exact StepOutcome.noConfusion h
        | some out =>
            obtain ⟨next1, pending1, nms1⟩ := out
            have hlen1 : pending1.length ≤ max_concurrency := by
              by_cases hnms : st.no_more_scheduling
              · simp only [hnms, not_true, if_false, Option.some.injEq,
                  Prod.mk.injEq] at hs
                obtain ⟨-, rfl, -⟩ := hs
                exact hlen
              · simp only [hnms, not_false_iff, if_true] at hs
                exact (schedule_synced_spec store cur_epoch max_concurrency hwf
                  st.next_to_schedule st.pending next1 pending1 nms1 hlen hs).2.1
            simp only [hs] at h
            cases ev with
            | completed =>
                cases pending1 with
                | nil => exact StepOutcome.noConfusion h
                | cons c rest =>
                    cases hfe : finished_executing_checkpoint store c with
                    | none =>
                        simp only [hfe] at h
                        exact StepOutcome.noConfusion h
                    | some store'' =>
                        simp only [hfe] at h
                        cases h
                        simp only [List.length_cons] at hlen1
                        exact Nat.le_of_lt hlen1
            | received r =>
                cases hr : checkpoint_received metrics r with
                | none =>
                    simp only [hr] at h
                    exact StepOutcome.noConfusion h
                | some m' =>
                    simp only [hr] at h
                    cases h
                    exact hlen1
  · intro next pending next' pending' nms' hlen hsched
    obtain ⟨hle, hblen, newly, hsplit, hmap, -, hbound⟩ :=
      schedule_synced_spec store cur_epoch max_concurrency hwf next pending
        next' pending' nms' hlen hsched
    exact ⟨hle, hblen, newly, hsplit, hmap, hbound⟩

/-- Concrete store used by the witness of claim C4: checkpoints 0..5 of
epoch 0 synced, nothing executed yet. -/
def c4Store : CheckpointStore :=
  { highest_executed := none
    highest_synced := some ⟨5, 0, 5, none⟩
    by_sequence_number := fun n => if n ≤ 5 then some ⟨n, 0, n, none⟩ else none }

theorem checkpoint_scheduling_bounded_ordered_witness :
    schedule_synced_checkpoints c4Store 0 3 0 [] =
      some (3, [⟨0, 0, 0, none⟩, ⟨1, 0, 1, none⟩, ⟨2, 0, 2, none⟩], false) ∧
    ([⟨0, 0, 0, none⟩, ⟨1, 0, 1, none⟩, ⟨2, 0, 2, none⟩] :
        List VerifiedCheckpoint).length ≤ 3 ∧
    ([⟨0, 0, 0, none⟩, ⟨1, 0, 1, none⟩, ⟨2, 0, 2, none⟩] :
        List VerifiedCheckpoint).map VerifiedCheckpoint.sequence_number =
      List.range' 0 3 := by
  have hwf : ∀ n c, c4Store.by_sequence_number n = some c →
      c.sequence_number = n := by
    intro n c h
    simp only [c4Store] at h
    split at h
    · cases h
      rfl
    · cases h
  have hrun : schedule_synced_checkpoints c4Store 0 3 0 [] =
      some (3, [⟨0, 0, 0, none⟩, ⟨1, 0, 1, none⟩, ⟨2, 0, 2, none⟩], false) := by
    rw [schedule_synced_checkpoints]
    simp only [get_highest_synced_checkpoint, c4Store]
    rw [scheduleLoop]
    norm_num [get_checkpoint_by_sequence_number]
    rw [scheduleLoop]
    norm_num [get_checkpoint_by_sequence_number]
    rw [scheduleLoop]
    norm_num [get_checkpoint_by_sequence_number]
    rw [scheduleLoop]
    norm_num
  have h := (checkpoint_scheduling_bounded_ordered c4Store 0 3 hwf).2
    0 [] 3 [⟨0, 0, 0, none⟩, ⟨1, 0, 1, none⟩, ⟨2, 0, 2, none⟩] false
    (by simp) hrun
  obtain ⟨-, hblen, newly, hsplit, hmap, -⟩ := h
  refine ⟨hrun, hblen, ?_⟩
  rw [List.nil_append] at hsplit
  rw [← hsplit] at hmap
  simpa using hmap

/-- Deterministic schedule of the `run_epoch` loop: every `select!` round
observes completion of the oldest in-flight task (the per-task retry loop
of `schedule_checkpoint` guarantees each task eventually resolves with
its checkpoint). Fuel bounds the number of loop iterations; `none` means
still running, or a fatal condition. Metrics are irrelevant on this path
and passed as a dummy. -/
def run_epoch_det (cur_epoch max_concurrency : Nat) :
    Nat → CheckpointStore → RunState → Option (Committee × CheckpointStore)
  | 0, _, _ => none
  | fuel + 1, store, st =>
      match run_epoch_step cur_epoch max_concurrency .completed store st ⟨0, 0⟩ with
      | .done committee store' => some (committee, store')
      | .fatal => none
      | .next st' store' _ => run_epoch_det cur_epoch max_concurrency fuel store' st'

/-- Checkpoint `k` of a fully synced single-epoch history `0..n` whose
last checkpoint carries the next-epoch committee (the shape of spec
section 8, scenarios 6-7). -/
def lineCkpt (cur_epoch n : Nat) (members : List (Nat × Nat)) (k : Nat) :
    VerifiedCheckpoint :=
  ⟨k, cur_epoch, k, if k = n then some members else none⟩

/-- The durable store of that history when the first `e` checkpoints have
been executed (no watermark when `e = 0`): exactly what survives a crash. -/
def lineStore (cur_epoch n : Nat) (members : List (Nat × Nat)) (e : Nat) :
    CheckpointStore :=
  { highest_executed :=
      if e = 0 then none else some (lineCkpt cur_epoch n members (e - 1))
    highest_synced := some (lineCkpt cur_epoch n members n)
    by_sequence_number := fun k =>
      if k ≤ n then some (lineCkpt cur_epoch n members k) else none }

/-- The pending buffer contents when checkpoints `[e, next)` are in
flight. -/
def lineRange (cur_epoch n : Nat) (members : List (Nat × Nat)) (e next : Nat) :
    List VerifiedCheckpoint :=
  (List.range' e (next - e)).map (lineCkpt cur_epoch n members)

theorem lineRange_concat (cur_epoch n : Nat) (members : List (Nat × Nat))
    (e next : Nat) (he : e ≤ next) :
    lineRange cur_epoch n members e (next + 1) =
      lineRange cur_epoch n members e next ++
        [lineCkpt cur_epoch n members next] := by
  unfold lineRange
  have h1 : next + 1 - e = (next - e) + 1 := by omega
  rw [h1, List.range'_concat, List.map_append]
  have h2 : e + 1 * (next - e) = next := by omega
  simp only [h2, List.map_cons, List.map_nil]

theorem lineRange_length (cur_epoch n : Nat) (members : List (Nat × Nat))
    (e next : Nat) :
    (lineRange cur_epoch n members e next).length = next - e := by
  simp [lineRange]

/-- Running the scheduling loop over the line store keeps the buffer of
the form `lineRange e next2` and makes progress whenever the buffer has
spare capacity and unscheduled synced checkpoints remain. -/
theorem scheduleLoop_line (cur_epoch n : Nat) (members : List (Nat × Nat))
    (max_concurrency e : Nat) :
    ∀ next pending,
      e ≤ next → next ≤ n + 1 → next - e ≤ max_concurrency →
      pending = lineRange cur_epoch n members e next →
      ∃ next2,
        scheduleLoop (lineStore cur_epoch n members e) cur_epoch
            max_concurrency n next pending =
          some (next2, lineRange cur_epoch n members e next2, false) ∧
        next ≤ next2 ∧ next2 ≤ n + 1 ∧ next2 - e ≤ max_concurrency ∧
        (e ≤ n → 1 ≤ max_concurrency → e < next2) := by
  intro next₀ pending₀
  induction next₀, pending₀ using
      scheduleLoop.induct (lineStore cur_epoch n members e) cur_epoch
        max_concurrency n with
  | case1 next pending h1 h2 hlook =>
      intro he hn hcap hpend
      simp [get_checkpoint_by_sequence_number, lineStore, h1] at hlook
  | case2 next pending h1 h2 checkpoint hlook h3 =>
      intro he hn hcap hpend
      simp only [get_checkpoint_by_sequence_number, lineStore, if_pos h1,
        Option.some.injEq] at hlook
      rw [← hlook] at h3
      simp [lineCkpt] at h3
  | case3 next pending h1 h2 checkpoint hlook h3 heq ih =>
      intro he hn hcap hpend
      simp only [get_checkpoint_by_sequence_number, lineStore, if_pos h1,
        Option.some.injEq] at hlook
      have hpend' : pending ++ [checkpoint] =
          lineRange cur_epoch n members e (next + 1) := by
        rw [hpend, ← hlook, lineRange_concat cur_epoch n members e next he]
      have hlenp : pending.length = next - e := by
        rw [hpend, lineRange_length]
      obtain ⟨next2, hrun, hle2, hn2, hcap2, hprog⟩ :=
        ih (by omega) (by omega) (by omega) hpend'
      refine ⟨next2, ?_, by omega, hn2, hcap2, fun _ _ => by omega⟩
      rw [scheduleLoop]
      simp only [dif_pos h1, if_pos h2]
      rw [show get_checkpoint_by_sequence_number (lineStore cur_epoch n members e)
          next = some checkpoint by
        simp [get_checkpoint_by_sequence_number, lineStore, h1, hlook]]
      simp only [if_neg h3, if_pos heq]
      exact hrun
  | case4 next pending h1 h2 checkpoint hlook h3 h4 =>
      intro he hn hcap hpend
      simp only [get_checkpoint_by_sequence_number, lineStore, if_pos h1,
        Option.some.injEq] at hlook
      rw [← hlook] at h4
      simp [lineCkpt] at h4
  | case5 next pending h1 h2 =>
      intro he hn hcap hpend
      have hlenp : pending.length = next - e := by
        rw [hpend, lineRange_length]
      have hge : max_concurrency ≤ next - e := by omega
      refine ⟨next, ?_, le_refl _, hn, hcap, fun _ hmax => by omega⟩
      rw [scheduleLoop]
      simp only [dif_pos h1, if_neg h2]
      rw [hpend]
  | case6 next pending h1 =>
      intro he hn hcap hpend
      refine ⟨next, ?_, le_refl _, hn, hcap, fun hen _ => by omega⟩
      rw [scheduleLoop]
      simp only [dif_neg h1]
      rw [hpend]

theorem lineStore_check_none (cur_epoch n : Nat) (members : List (Nat × Nat))
    (e : Nat) (hen : e ≤ n) :
    check_epoch_last_checkpoint cur_epoch
      (lineStore cur_epoch n members e).highest_executed = none := by
  rcases Nat.eq_zero_or_pos e with rfl | hpos
  · simp [lineStore, check_epoch_last_checkpoint]
  · have h0 : ¬ e = 0 := by omega
    have hne : ¬ (e - 1 = n) := by omega
    simp [lineStore, check_epoch_last_checkpoint, lineCkpt, h0, hne]

theorem lineStore_update (cur_epoch n : Nat) (members : List (Nat × Nat))
    (e : Nat) :
    update_highest_executed_checkpoint (lineStore cur_epoch n members e)
      (lineCkpt cur_epoch n members e) =
    lineStore cur_epoch n members (e + 1) := by
  simp [update_highest_executed_checkpoint, lineStore]

theorem lineStore_finished (cur_epoch n : Nat) (members : List (Nat × Nat))
    (e : Nat) :
    finished_executing_checkpoint (lineStore cur_epoch n members e)
      (lineCkpt cur_epoch n members e) =
    some (lineStore cur_epoch n members (e + 1)) := by
  unfold finished_executing_checkpoint
  rcases Nat.eq_zero_or_pos e with rfl | hpos
  · simp [get_highest_executed_checkpoint_seq_number, lineStore, lineCkpt,
      update_highest_executed_checkpoint]
  · have h0 : ¬ e = 0 := by omega
    have h1 : e - 1 + 1 = e := by omega
    simp [get_highest_executed_checkpoint_seq_number, lineStore, lineCkpt, h0,
      h1, update_highest_executed_checkpoint]

theorem lineStore_check_done (cur_epoch n : Nat) (members : List (Nat × Nat)) :
    check_epoch_last_checkpoint cur_epoch
      (lineStore cur_epoch n members (n + 1)).highest_executed =
    some (Committee.new (cur_epoch + 1) members) := by
  simp [lineStore, check_epoch_last_checkpoint, lineCkpt]

/-- Main run lemma for claim C3: starting the deterministic epoch run on
the line store with any durable watermark `e - 1` (none when `e = 0`) and
any in-flight window `[e, next)` consistent with the concurrency cap, the
run terminates with the next-epoch committee and the final watermark `n`,
independent of `e` and `next`. -/
theorem run_line (cur_epoch n max_concurrency : Nat)
    (members : List (Nat × Nat)) (hmax : 1 ≤ max_concurrency) :
    ∀ fuel e next,
      e ≤ next → next ≤ n + 1 → next - e ≤ max_concurrency →
      n + 2 - e ≤ fuel →
      run_epoch_det cur_epoch max_concurrency fuel
        (lineStore cur_epoch n members e)
        ⟨(lineStore cur_epoch n members e).highest_executed, next,
          lineRange cur_epoch n members e next, false⟩ =
      some (Committee.new (cur_epoch + 1) members,
        lineStore cur_epoch n members (n + 1)) := by
  intro fuel
  induction fuel with
  | zero =>
      intro e next he hn hcap hfuel
      omega
  | succ f ih =>
      intro e next he hn hcap hfuel
      by_cases hend : e = n + 1
      · subst hend
        have hnext : next = n + 1 := by omega
        subst hnext
        have hpe : lineRange cur_epoch n members (n + 1) (n + 1) = [] := by
          simp [lineRange]
        simp only [run_epoch_det, run_epoch_step,
          lineStore_check_done cur_epoch n members, hpe, List.isEmpty_nil,
          if_true]
      · have hen : e ≤ n := by omega
        obtain ⟨next2, hrun, hle2, hn2, hcap2, hprog⟩ :=
          scheduleLoop_line cur_epoch n members max_concurrency e next
            (lineRange cur_epoch n members e next) he hn hcap rfl
        have hlt : e < next2 := hprog hen hmax
        have hsync : get_highest_synced_checkpoint
            (lineStore cur_epoch n members e) =
            some (lineCkpt cur_epoch n members n) := by
          simp [get_highest_synced_checkpoint, lineStore]
        have hss : schedule_synced_checkpoints (lineStore cur_epoch n members e)
            cur_epoch max_concurrency next (lineRange cur_epoch n members e next) =
            some (next2, lineRange cur_epoch n members e next2, false) := by
          unfold schedule_synced_checkpoints
          rw [hsync]
          simpa [lineCkpt] using hrun
        have hcons : lineRange cur_epoch n members e next2 =
            lineCkpt cur_epoch n members e ::
              lineRange cur_epoch n members (e + 1) next2 := by
          unfold lineRange
          have hk : next2 - e = (next2 - (e + 1)) + 1 := by omega
          rw [hk, List.range'_succ]
          simp
        have happ := ih (e + 1) next2 (by omega) hn2 (by omega) (by omega)
        have heq1 : (lineStore cur_epoch n members (e + 1)).highest_executed =
            some (lineCkpt cur_epoch n members e) := by
          simp [lineStore]
        rw [heq1] at happ
        simp only [run_epoch_det, run_epoch_step,
          lineStore_check_none cur_epoch n members e hen, Bool.false_eq_true,
          not_false_eq_true, if_true, hss, hcons,
          lineStore_finished cur_epoch n members e]
        exact happ

/-- Claim C3: `run_epoch` derives its first checkpoint to schedule purely
from durable state — `next_to_schedule` is seeded with the persisted
highest-executed sequence number plus one (0 when nothing was ever
executed) and an empty buffer — and on a fully synced epoch history
`0..n`, the deterministic run started from any persisted watermark
(`e = 0`: the uninterrupted run; `0 < e ≤ n + 1`: a restart after a crash
that had durably executed checkpoints `0..e-1`) terminates with the same
next-epoch committee and the same final watermark `n`. -/
theorem crash_recovery_idempotence (cur_epoch n max_concurrency e : Nat)
    (members : List (Nat × Nat)) (hmax : 1 ≤ max_concurrency)
    (he : e ≤ n + 1) :
    (∀ store : CheckpointStore,
      (run_epoch_init store).next_to_schedule = expected_next_seq store ∧
      (run_epoch_init store).pending = []) ∧
    run_epoch_det cur_epoch max_concurrency (n + 2)
        (lineStore cur_epoch n members e)
        (run_epoch_init (lineStore cur_epoch n members e)) =
      some (Committee.new (cur_epoch + 1) members,
        lineStore cur_epoch n members (n + 1)) ∧
    run_epoch_det cur_epoch max_concurrency (n + 2)
        (lineStore cur_epoch n members 0)
        (run_epoch_init (lineStore cur_epoch n members 0)) =
      some (Committee.new (cur_epoch + 1) members,
        lineStore cur_epoch n members (n + 1)) := by
  have hinit : ∀ w, w ≤ n + 1 →
      run_epoch_init (lineStore cur_epoch n members w) =
        ⟨(lineStore cur_epoch n members w).highest_executed, w,
          lineRange cur_epoch n members w w, false⟩ := by
    intro w hw
    have hpend0 : lineRange cur_epoch n members w w = [] := by
      simp [lineRange]
    unfold run_epoch_init get_highest_executed_checkpoint
    rcases Nat.eq_zero_or_pos w with rfl | hpos
    · simp [lineStore, hpend0]
    · have h0 : ¬ w = 0 := by omega
      have h1 : w - 1 + 1 = w := by omega
      simp [lineStore, lineCkpt, h0, h1, hpend0]
  refine ⟨?_, ?_, ?_⟩
  · intro store
    constructor
    · unfold run_epoch_init expected_next_seq get_highest_executed_checkpoint
        get_highest_executed_checkpoint_seq_number
      cases store.highest_executed <;> simp
    · rfl
  · rw [hinit e he]
    exact run_line cur_epoch n max_concurrency members hmax (n + 2) e e
      (le_refl e) he (by omega) (by omega)
  · rw [hinit 0 (by omega)]
    exact run_line cur_epoch n max_concurrency members hmax (n + 2) 0 0
      (le_refl 0) (by omega) (by omega) (by omega)

theorem crash_recovery_idempotence_witness :
    run_epoch_det 0 1 4 (lineStore 0 2 [(1, 1)] 1)
        (run_epoch_init (lineStore 0 2 [(1, 1)] 1)) =
      some (Committee.new 1 [(1, 1)], lineStore 0 2 [(1, 1)] 3) ∧
    run_epoch_det 0 1 4 (lineStore 0 2 [(1, 1)] 0)
        (run_epoch_init (lineStore 0 2 [(1, 1)] 0)) =
      some (Committee.new 1 [(1, 1)], lineStore 0 2 [(1, 1)] 3) := by
  have h := crash_recovery_idempotence 0 2 1 1 [(1, 1)] (by decide) (by decide)
  exact ⟨h.2.1, h.2.2⟩

/-! Quorum driver (`crates/sui-quorum-driver/src/lib.rs`). -/

/-- A certified transaction; the driver treats its contents opaquely. -/
structure CertifiedTransaction where
  tx_digest : Nat
  deriving Repr, DecidableEq

/-- Transaction effects; the transaction digest field is the one read by
the executor's effects map, the payload stands for the rest. -/
structure TransactionEffects where
  transaction_digest : Nat
  payload : Nat
  deriving Repr, DecidableEq

/-- The driver-visible error cases of `SuiError`: the communication error
built on a failed internal-queue send, and errors bubbled up verbatim
from the validator aggregator or other collaborators. -/
inductive SuiError
  | QuorumDriverCommunicationError
  | AggregatorError (code : Nat)
  deriving Repr, DecidableEq

inductive ExecuteTransactionRequestType
  | ImmediateReturn
  | WaitForTxCert
  | WaitForEffectsCert
  deriving Repr, DecidableEq

inductive ExecuteTransactionResponse
  | ImmediateReturn
  | TxCert (certificate : CertifiedTransaction)
  | EffectsCert (response : CertifiedTransaction × TransactionEffects)
  deriving Repr, DecidableEq

/-- `QuorumTask` (lib.rs lines 21-25); transactions and aggregators are
identified by `Nat`. -/
inductive QuorumTask
  | ProcessTransaction (transaction : Nat)
  | ProcessCertificate (certificate : CertifiedTransaction)
  | UpdateValidators (aggregator : Nat)
  deriving Repr, DecidableEq

/-- The internal mpsc task queue; a send fails exactly when the receiver
side is gone. -/
structure TaskQueue where
  closed : Bool
  tasks : List QuorumTask
  deriving Repr, DecidableEq

def taskQueueSend (queue : TaskQueue) (task : QuorumTask) : TaskQueue × Bool :=
  if queue.closed then (queue, false)
  else ({ queue with tasks := queue.tasks ++ [task] }, true)

/-- The bounded effects-subscription mpsc channel
(`effects_subscribe_sender`); a send fails exactly when the receiver side
is gone. -/
structure EffectsChannel where
  receiver_closed : Bool
  sent : List (CertifiedTransaction × TransactionEffects)
  deriving Repr, DecidableEq

def effectsChannelSend (channel : EffectsChannel)
    (msg : CertifiedTransaction × TransactionEffects) : EffectsChannel × Bool :=
  if channel.receiver_closed then (channel, false)
  else ({ channel with sent := channel.sent ++ [msg] }, true)

/-- `QuorumDriverHandler::process_certificate` (lib.rs lines 149-170):
the aggregator call `validators.load().process_certificate` is an
external collaborator whose outcome is taken as an argument; on success
the `(certificate, effects)` response is sent to the subscription channel
and a send failure is only logged (counted here), never propagated —
the response is returned either way. -/
def process_certificate
    (aggregator_outcome : Except SuiError TransactionEffects)
    (certificate : CertifiedTransaction) (channel : EffectsChannel)
    (errors_logged : Nat) :
    Except SuiError (CertifiedTransaction × TransactionEffects) ×
      EffectsChannel × Nat :=
  match aggregator_outcome with
  | .error e => (.error e, channel, errors_logged)
  | .ok effects =>
      let response := (certificate, effects)
      match effectsChannelSend channel response with
      | (channel', true) => (.ok response, channel', errors_logged)
      | (channel', false) => (.ok response, channel', errors_logged + 1)

/-- `QuorumDriverHandler::execute_transaction` (lib.rs lines 177-224).
The two quorum phases run against the currently loaded aggregator and
are external collaborators; their outcomes are taken as arguments. -/
def execute_transaction (request_type : ExecuteTransactionRequestType)
    (transaction : Nat)
    (process_transaction_outcome : Except SuiError CertifiedTransaction)
    (aggregator_cert_outcome : Except SuiError TransactionEffects)
    (queue : TaskQueue) (channel : EffectsChannel) (errors_logged : Nat) :
    Except SuiError ExecuteTransactionResponse × TaskQueue ×
      EffectsChannel × Nat :=
  match request_type with
  | .ImmediateReturn =>
      match taskQueueSend queue (.ProcessTransaction transaction) with
      | (queue', true) => (.ok .ImmediateReturn, queue', channel, errors_logged)
      | (queue', false) =>
          (.error .QuorumDriverCommunicationError, queue', channel,
            errors_logged)
  | .WaitForTxCert =>
      match process_transaction_outcome with
      | .error e => (.error e, queue, channel, errors_logged)
      | .ok certificate =>
          match taskQueueSend queue (.ProcessCertificate certificate) with
          | (queue', true) =>
              (.ok (.TxCert certificate), queue', channel, errors_logged)
          | (queue', false) =>
              (.error .QuorumDriverCommunicationError, queue', channel,
                errors_logged)
  | .WaitForEffectsCert =>
      match process_transaction_outcome with
      | .error e => (.error e, queue, channel, errors_logged)
      | .ok certificate =>
          match process_certificate aggregator_cert_outcome certificate
              channel errors_logged with
          | (.error e, channel', errors') =>
              (.error e, queue, channel', errors')
          | (.ok response, channel', errors') =>
              (.ok (.EffectsCert response), queue, channel', errors')

/-- Claim C6: with `WaitForEffectsCert` and both quorum phases
succeeding, the caller receives the `(certificate, effects)` pair; when
the subscription channel is deliverable the identical pair is appended to
it, and when publishing fails the failure is only logged (the counter
increments) while the call still returns `Ok` with the same pair — a
publish failure never propagates to the caller. -/
theorem execute_transaction_effects_cert (transaction : Nat)
    (certificate : CertifiedTransaction) (effects : TransactionEffects)
    (queue : TaskQueue) (channel : EffectsChannel) (errors_logged : Nat) :
    execute_transaction .WaitForEffectsCert transaction
        (.ok certificate) (.ok effects) queue channel errors_logged =
      if channel.receiver_closed then
        (.ok (.EffectsCert (certificate, effects)), queue, channel,
          errors_logged + 1)
      else
        (.ok (.EffectsCert (certificate, effects)), queue,
          { channel with sent := channel.sent ++ [(certificate, effects)] },
          errors_logged) := by
  by_cases h : channel.receiver_closed <;>
    simp [execute_transaction, process_certificate, effectsChannelSend, h]

/-- Claim C10: with `WaitForTxCert` and a successful phase one, the call
returns the certificate exactly when the send of the `ProcessCertificate`
task onto the internal queue succeeds; when the queue is closed the call
returns `QuorumDriverCommunicationError`, and the already-obtained
certificate appears neither in the response nor in the queue — it is
discarded. -/
theorem execute_transaction_tx_cert (transaction : Nat)
    (certificate : CertifiedTransaction)
    (aggregator_cert_outcome : Except SuiError TransactionEffects)
    (queue : TaskQueue) (channel : EffectsChannel) (errors_logged : Nat) :
    execute_transaction .WaitForTxCert transaction (.ok certificate)
        aggregator_cert_outcome queue channel errors_logged =
      if queue.closed then
        (.error .QuorumDriverCommunicationError, queue, channel, errors_logged)
      else
        (.ok (.TxCert certificate),
          { queue with
            tasks := queue.tasks ++ [.ProcessCertificate certificate] },
          channel, errors_logged) := by
  by_cases h : queue.closed <;>
    simp [execute_transaction, taskQueueSend, h]

/-- Events of the concurrency model for the hot-swappable aggregator
(`validators : ArcSwap<AuthorityAggregator>`, lib.rs line 36). Operations
are identified by `Nat`. `startPhase1 op` is the moment of the single
`validators.load()` at the start of `process_transaction` (line 142);
`startPhase2 op` the single load at the start of `process_certificate`
(line 154); `finishPhase1` / `finishPhase2` mark phase completions;
`swap v` is `validators.store(Arc::new(..))` performed by the
`UpdateValidators` task (line 130). Aggregators are identified by `Nat`. -/
inductive QDEvent
  | startPhase1 (op : Nat)
  | finishPhase1 (op : Nat)
  | startPhase2 (op : Nat)
  | finishPhase2 (op : Nat)
  | swap (aggregator : Nat)
  deriving Repr, DecidableEq

/-- The aggregator load observed by a given event: the cell's content
just before the first occurrence of that event in the trace (`none` when
the event never occurs). Because each of `process_transaction` and
`process_certificate` performs exactly one `validators.load()` and uses
the returned guard for its whole duration, this is the aggregator that
phase uses to completion. -/
def loadAt (init : Nat) : List QDEvent → QDEvent → Option Nat
  | [], _ => none
  | e :: rest, ev =>
      if e = ev then some init
      else loadAt (match e with | .swap v => v | _ => init) rest ev

/-- Counterexample to claim C5 as stated: in the trace where operation 7
starts phase one under aggregator 0, `update_validators` swaps in
aggregator 1 while the operation is still in phase one, and the operation
then finishes phase one and runs phase two, the single load of
`process_certificate` (lib.rs line 154) happens after the swap — so the
operation completes (its second phase, producing the final effects pair)
under the new aggregator 1, not under the aggregator 0 it captured when
it started. -/
theorem quorum_driver_swap_counterexample :
    loadAt 0 [.startPhase1 7, .swap 1, .finishPhase1 7, .startPhase2 7,
        .finishPhase2 7] (.startPhase1 7) = some 0 ∧
    loadAt 0 [.startPhase1 7, .swap 1, .finishPhase1 7, .startPhase2 7,
        .finishPhase2 7] (.startPhase2 7) = some 1 ∧
    (1 : Nat) ≠ 0 := by decide

/-- Claim C5 (amended): each quorum phase (`process_transaction`,
`process_certificate`) captures the aggregator by a single atomic load at
its start, and no later event — in particular no validator-set swap —
can change the value that phase uses, so a phase in flight at swap time
completes under the aggregator it loaded, never a torn value; and a phase
whose load happens right after a swap to `v` uses `v`. Only the in-flight
phase, not a whole two-phase operation, is pinned to the old aggregator. -/
theorem quorum_driver_phase_capture (t1 : List QDEvent) (init v a : Nat)
    (ev : QDEvent) :
    (loadAt init t1 ev = some a → ∀ t2, loadAt init (t1 ++ t2) ev = some a) ∧
    (ev ∉ t1 → QDEvent.swap v ≠ ev →
      ∀ t2, loadAt init (t1 ++ .swap v :: ev :: t2) ev = some v) := by
  induction t1 generalizing init with
  | nil =>
      constructor
      · intro h
        exact absurd h (by simp [loadAt])
      · intro hmem hsw t2
        simp only [List.nil_append, loadAt, if_neg hsw]
        simp [loadAt]
  | cons e rest ih =>
      constructor
      · intro h t2
        by_cases he : e = ev
        · simp only [loadAt, he, if_true] at h
          simp only [List.cons_append, loadAt, he, if_true]
          exact h
        · simp only [loadAt, if_neg he] at h
          simp only [List.cons_append, loadAt, if_neg he]
          exact (ih _).1 h t2
      · intro hmem hsw t2
        have he : e ≠ ev := fun hcontr => hmem (hcontr ▸ List.mem_cons_self e rest)
        simp only [List.cons_append, loadAt, if_neg he]
        exact (ih _).2 (fun hr => hmem (List.mem_cons_of_mem e hr)) hsw t2

theorem quorum_driver_phase_capture_witness :
    loadAt 0 ([QDEvent.startPhase1 3] ++ [QDEvent.swap 1])
        (QDEvent.startPhase1 3) = some 0 ∧
    loadAt 0 ([QDEvent.startPhase1 3] ++
        QDEvent.swap 1 :: QDEvent.startPhase2 3 :: [])
        (QDEvent.startPhase2 3) = some 1 := by
  refine ⟨(quorum_driver_phase_capture [QDEvent.startPhase1 3] 0 1 0
      (QDEvent.startPhase1 3)).1 (by decide) [QDEvent.swap 1],
    (quorum_driver_phase_capture [QDEvent.startPhase1 3] 0 1 0
      (QDEvent.startPhase2 3)).2 (by decide) (by decide) []⟩

/-! `execute_transactions` of the checkpoint executor (mod.rs lines
365-461). -/

/-- A synced certificate as the executor reads it: its digest and the
shared-object flag derived from the transaction kind. -/
structure VerifiedCertificate where
  digest : Nat
  contains_shared_object : Bool
  deriving Repr, DecidableEq

/-- One entry of `CheckpointContents`: transaction digest paired with the
precomputed effects digest. -/
structure ExecutionDigests where
  transaction : Nat
  effects : Nat
  deriving Repr, DecidableEq

/-- Externally observable actions of `execute_transactions`, in program
order. -/
inductive ExecAction
  | acquire_shared_locks (tx_digest : Nat)
  | insert_pending_certificates (tx_digests : List Nat)
  | enqueue (tx_digests : List Nat)
  deriving Repr, DecidableEq

/-- The `digest_to_effects` map (mod.rs lines 389-401): collected into a
`HashMap` keyed by `fx.transaction_digest`, later entries overwriting
earlier ones. -/
def digest_to_effects (fx_list : List TransactionEffects) :
    Nat → Option TransactionEffects :=
  fx_list.foldl
    (fun m fx d => if d = fx.transaction_digest then some fx else m d)
    (fun _ => none)

/-- The `synced_txns` list (mod.rs lines 376-383): `multi_get` over all
transaction digests, missing entries silently dropped (`flatten`). -/
def synced_txns (execution_digests : List ExecutionDigests)
    (synced_transactions : Nat → Option VerifiedCertificate) :
    List VerifiedCertificate :=
  (execution_digests.map ExecutionDigests.transaction).filterMap
    synced_transactions

/-- The `for tx in synced_txns` loop (mod.rs lines 403-413): for every
transaction containing a shared object, look up its recorded effects in
the map (`unwrap`, panic when missing — the `none` case) and call
`acquire_shared_locks_from_effects` with them, an external collaborator
whose outcome is supplied by `lock_outcome`; `?` propagates the first
lock error immediately. -/
def acquireLocksLoop (d2e : Nat → Option TransactionEffects)
    (lock_outcome : Nat → Except SuiError Unit) :
    List VerifiedCertificate → List ExecAction →
    Option (Except SuiError Unit × List ExecAction)
  | [], actions => some (.ok (), actions)
  | tx :: rest, actions =>
      if tx.contains_shared_object then
        match d2e tx.digest with
        | none => none
        | some _ =>
            match lock_outcome tx.digest with
            | .ok _ =>
                acquireLocksLoop d2e lock_outcome rest
                  (actions ++ [.acquire_shared_locks tx.digest])
            | .error e =>
                some (.error e,
                  actions ++ [.acquire_shared_locks tx.digest])
      else
        acquireLocksLoop d2e lock_outcome rest actions

/-- `execute_transactions` (mod.rs lines 365-417), embedded up to and
including the `transaction_manager.enqueue` call, recording observable
actions in order. The effects `multi_get` panics when any entry is
missing (mod.rs lines 394-397, the outer `none`); `insert_outcome` and
`enqueue_outcome` are the `SuiResult`s of `insert_pending_certificates`
and `enqueue`, both propagated by `?`. The effects-waiting loop after the
enqueue (lines 419-460) performs no further scheduling action and is
omitted here. -/
def execute_transactions
    (execution_digests : List ExecutionDigests)
    (synced_transactions : Nat → Option VerifiedCertificate)
    (effects_table : Nat → Option TransactionEffects)
    (lock_outcome : Nat → Except SuiError Unit)
    (insert_outcome enqueue_outcome : Except SuiError Unit) :
    Option (Except SuiError Unit × List ExecAction) :=
  let synced := synced_txns execution_digests synced_transactions
  match (execution_digests.map ExecutionDigests.effects).mapM effects_table with
  | none => none
  | some fx_list =>
      match acquireLocksLoop (digest_to_effects fx_list) lock_outcome
          synced [] with
      | none => none
      | some (.error e, actions) => some (.error e, actions)
      | some (.ok _, actions) =>
          let actions :=
            actions ++ [.insert_pending_certificates
              (synced.map VerifiedCertificate.digest)]
          match insert_outcome with
          | .error e => some (.error e, actions)
          | .ok _ =>
              let actions :=
                actions ++ [.enqueue (synced.map VerifiedCertificate.digest)]
              match enqueue_outcome with
              | .error e => some (.error e, actions)
              | .ok _ => some (.ok (), actions)

theorem acquireLocksLoop_spec (d2e : Nat → Option TransactionEffects)
    (lock_outcome : Nat → Except SuiError Unit) :
    ∀ txs actions r acts,
      acquireLocksLoop d2e lock_outcome txs actions = some (r, acts) →
      ∃ newActs, acts = actions ++ newActs ∧
        (∀ a ∈ newActs, ∃ d, a = ExecAction.acquire_shared_locks d) ∧
        (r = .ok () → newActs =
          (txs.filter (fun tx => tx.contains_shared_object)).map
            (fun tx => ExecAction.acquire_shared_locks tx.digest)) := by
  intro txs
  induction txs with
  | nil =>
      intro actions r acts h
      simp only [acquireLocksLoop, Option.some.injEq, Prod.mk.injEq] at h
      obtain ⟨rfl, rfl⟩ := h
      exact ⟨[], by simp, by simp, by simp⟩
  | cons tx rest ih =>
      intro actions r acts h
      by_cases hsh : tx.contains_shared_object
      · simp only [acquireLocksLoop, hsh, if_true] at h
        cases hd : d2e tx.digest with
        | none =>
            rw [hd] at h
            exact Option.noConfusion h
        | some fx =>
            rw [hd] at h
            cases hl : lock_outcome tx.digest with
            | ok u =>
                rw [hl] at h
                obtain ⟨newActs, hsplit, hacq, hok⟩ := ih _ r acts h
                refine ⟨.acquire_shared_locks tx.digest :: newActs, ?_, ?_, ?_⟩
                · rw [hsplit, List.append_assoc]
                  rfl
                · intro a ha
                  rcases List.mem_cons.mp ha with rfl | ha'
                  · exact ⟨tx.digest, rfl⟩
                  · exact hacq a ha'
                · intro hr
                  rw [hok hr]
                  simp [hsh]
            | error e =>
                rw [hl] at h
                simp only [Option.some.injEq, Prod.mk.injEq] at h
                obtain ⟨rfl, rfl⟩ := h
                refine ⟨[.acquire_shared_locks tx.digest], rfl, ?_, ?_⟩
                · intro a ha
                  rcases List.mem_cons.mp ha with rfl | ha'
                  · exact ⟨tx.digest, rfl⟩
                  · exact absurd ha' (List.not_mem_nil a)
                · intro hr
                  exact Except.noConfusion hr
      · simp only [acquireLocksLoop, hsh, if_false] at h
        obtain ⟨newActs, hsplit, hacq, hok⟩ := ih _ r acts h
        refine ⟨newActs, hsplit, hacq, ?_⟩
        intro hr
        rw [hok hr]
        simp [hsh]

/-- Claim C7: within one checkpoint's execution, whenever the batch was
handed to the transaction-execution engine (an `enqueue` action occurs in
the trace), the action trace is exactly: one shared-object lock
acquisition per shared-object transaction of the checkpoint, in
checkpoint order, then the pending-certificates record, then the single
batch `enqueue` — so no transaction of the checkpoint is enqueued before
lock acquisition has completed for every shared-object transaction, with
the recorded effects as lock scope. -/
theorem execute_transactions_locks_before_enqueue
    (execution_digests : List ExecutionDigests)
    (synced_transactions : Nat → Option VerifiedCertificate)
    (effects_table : Nat → Option TransactionEffects)
    (lock_outcome : Nat → Except SuiError Unit)
    (insert_outcome enqueue_outcome : Except SuiError Unit)
    (result : Except SuiError Unit) (actions : List ExecAction)
    (h : execute_transactions execution_digests synced_transactions
      effects_table lock_outcome insert_outcome enqueue_outcome =
        some (result, actions)) :
    ∀ txs, ExecAction.enqueue txs ∈ actions →
      txs = (synced_txns execution_digests synced_transactions).map
              VerifiedCertificate.digest ∧
      actions =
        (((synced_txns execution_digests synced_transactions).filter
            (fun tx => tx.contains_shared_object)).map
          (fun tx => ExecAction.acquire_shared_locks tx.digest)) ++
        [ExecAction.insert_pending_certificates
            ((synced_txns execution_digests synced_transactions).map
              VerifiedCertificate.digest),
          ExecAction.enqueue
            ((synced_txns execution_digests synced_transactions).map
              VerifiedCertificate.digest)] := by
  simp only [execute_transactions] at h
  cases hm : (execution_digests.map ExecutionDigests.effects).mapM
      effects_table with
  | none =>
      simp only [hm] at h
      exact Option.noConfusion h
  | some fx_list =>
      simp only [hm] at h
      cases hloop : acquireLocksLoop (digest_to_effects fx_list) lock_outcome
          (synced_txns execution_digests synced_transactions) [] with
      | none =>
          simp only [hloop] at h
          exact Option.noConfusion h
      | some out =>
          obtain ⟨r0, acts0⟩ := out
          simp only [hloop] at h
          obtain ⟨newActs, hsplit0, hacq, hok⟩ :=
            acquireLocksLoop_spec _ _ _ _ _ _ hloop
          rw [List.nil_append] at hsplit0
          subst hsplit0
          cases r0 with
          | error e =>
              simp only [Option.some.injEq, Prod.mk.injEq] at h
              obtain ⟨rfl, rfl⟩ := h
              intro txs htxs
              obtain ⟨d, hd⟩ := hacq _ htxs
              exact absurd hd (by simp)
          | ok u =>
              cases u
              have hn := hok rfl
              subst hn
              have hshape : ∀ tail : List ExecAction,
                  (((synced_txns execution_digests
                      synced_transactions).filter
                      (fun tx => tx.contains_shared_object)).map
                    (fun tx => ExecAction.acquire_shared_locks tx.digest)) ++
                    [ExecAction.insert_pending_certificates
                      ((synced_txns execution_digests
                        synced_transactions).map
                        VerifiedCertificate.digest)] ++ tail =
                  (((synced_txns execution_digests
                      synced_transactions).filter
                      (fun tx => tx.contains_shared_object)).map
                    (fun tx => ExecAction.acquire_shared_locks tx.digest)) ++
                    (ExecAction.insert_pending_certificates
                      ((synced_txns execution_digests
                        synced_transactions).map
                        VerifiedCertificate.digest) :: tail) := by
                intro tail
                rw [List.append_assoc]
                rfl
              have hmemtail : ∀ txs,
                  ExecAction.enqueue txs ∈
                    (((synced_txns execution_digests
                        synced_transactions).filter
                        (fun tx => tx.contains_shared_object)).map
                      (fun tx => ExecAction.acquire_shared_locks tx.digest)) ++
                      [ExecAction.insert_pending_certificates
                        ((synced_txns execution_digests
                          synced_transactions).map
                          VerifiedCertificate.digest)] ++
                      [ExecAction.enqueue
                        ((synced_txns execution_digests
                          synced_transactions).map
                          VerifiedCertificate.digest)] →
                  txs = (synced_txns execution_digests
                      synced_transactions).map VerifiedCertificate.digest := by
                intro txs htxs
                rcases List.mem_append.mp htxs with hmem | hmem
                · rcases List.mem_append.mp hmem with hmem2 | hmem2
                  · obtain ⟨tx, -, hd⟩ := List.mem_map.mp hmem2
                    exact absurd hd.symm (by simp)
                  · simp at hmem2
                · simp only [List.mem_singleton] at hmem
                  cases hmem
                  rfl
              cases insert_outcome with
              | error e =>
                  simp only [Option.some.injEq, Prod.mk.injEq] at h
                  obtain ⟨rfl, rfl⟩ := h
                  intro txs htxs
                  rcases List.mem_append.mp htxs with hmem | hmem
                  · obtain ⟨tx, -, hd⟩ := List.mem_map.mp hmem
                    exact absurd hd.symm (by simp)
                  · simp at hmem
              | ok v =>
                  cases v
                  cases enqueue_outcome with
                  | error e =>
                      simp only [Option.some.injEq, Prod.mk.injEq] at h
                      obtain ⟨rfl, rfl⟩ := h
                      intro txs htxs
                      exact ⟨hmemtail txs htxs, hshape _⟩
                  | ok w =>
                      cases w
                      simp only [Option.some.injEq, Prod.mk.injEq] at h
                      obtain ⟨rfl, rfl⟩ := h
                      intro txs htxs
                      exact ⟨hmemtail txs htxs, hshape _⟩

/-- Concrete inputs for the witness of claim C7: two transactions, the
first touching a shared object. -/
def c7Digests : List ExecutionDigests := [⟨1, 101⟩, ⟨2, 102⟩]

def c7Synced : Nat → Option VerifiedCertificate := fun d =>
  if d = 1 then some ⟨1, true⟩ else if d = 2 then some ⟨2, false⟩ else none

def c7Effects : Nat → Option TransactionEffects := fun d =>
  if d = 101 then some ⟨1, 101⟩ else if d = 102 then some ⟨2, 102⟩ else none

theorem execute_transactions_locks_before_enqueue_witness :
    ([1, 2] : List Nat) = (synced_txns c7Digests c7Synced).map
        VerifiedCertificate.digest ∧
    [ExecAction.acquire_shared_locks 1,
      ExecAction.insert_pending_certificates [1, 2],
      ExecAction.enqueue [1, 2]] =
      (((synced_txns c7Digests c7Synced).filter
          (fun tx => tx.contains_shared_object)).map
        (fun tx => ExecAction.acquire_shared_locks tx.digest)) ++
      [ExecAction.insert_pending_certificates
          ((synced_txns c7Digests c7Synced).map VerifiedCertificate.digest),
        ExecAction.enqueue
          ((synced_txns c7Digests c7Synced).map VerifiedCertificate.digest)] := by
  have h := execute_transactions_locks_before_enqueue c7Digests c7Synced
    c7Effects (fun _ => .ok ()) (.ok ()) (.ok ()) (.ok ())
    [ExecAction.acquire_shared_locks 1,
      ExecAction.insert_pending_certificates [1, 2],
      ExecAction.enqueue [1, 2]]
    rfl [1, 2] (by decide)
  exact h

/-- The retry loop of the execution task spawned by `schedule_checkpoint`
(mod.rs lines 273-294): `while let Err(err) = execute_checkpoint(..)`
sleep the fixed 1s backoff, bump `checkpoint_exec_errors`, and try again;
the task body ends by returning the checkpoint. The outcome of the `k`-th
`execute_checkpoint` attempt is supplied by `outcomes k` (the backoff
sleep has no effect on the embedded state). Fuel bounds the number of
attempts observed; `none` means the task is still retrying — the task
value type shows that no error can ever escape it. -/
def schedule_checkpoint_task (outcomes : Nat → Except SuiError Unit)
    (checkpoint : VerifiedCheckpoint) :
    Nat → Nat → Nat → Option (VerifiedCheckpoint × Nat)
  | 0, _, _ => none
  | fuel + 1, attempt, errors =>
      match outcomes attempt with
      | .ok _ => some (checkpoint, errors)
      | .error _ =>
          schedule_checkpoint_task outcomes checkpoint fuel (attempt + 1)
            (errors + 1)

theorem schedule_checkpoint_task_ok (outcomes : Nat → Except SuiError Unit)
    (checkpoint : VerifiedCheckpoint) :
    ∀ k a errors,
      (∀ j, j < k → ∃ e, outcomes (a + j) = .error e) →
      outcomes (a + k) = .ok () →
      schedule_checkpoint_task outcomes checkpoint (k + 1) a errors =
        some (checkpoint, errors + k) := by
  intro k
  induction k with
  | zero =>
      intro a errors hfail hok
      simp only [schedule_checkpoint_task, Nat.add_zero] at *
      rw [hok]
  | succ m ih =>
      intro a errors hfail hok
      obtain ⟨e, he⟩ := hfail 0 (Nat.succ_pos m)
      rw [Nat.add_zero] at he
      have hfail' : ∀ j, j < m → ∃ e, outcomes (a + 1 + j) = .error e := by
        intro j hj
        have := hfail (j + 1) (by omega)
        rwa [show a + (j + 1) = a + 1 + j by omega] at this
      have hok' : outcomes (a + 1 + m) = .ok () := by
        rwa [show a + (m + 1) = a + 1 + m by omega] at hok
      have hstep : schedule_checkpoint_task outcomes checkpoint (m + 1 + 1)
          a errors =
          schedule_checkpoint_task outcomes checkpoint (m + 1) (a + 1)
            (errors + 1) := by
        rw [schedule_checkpoint_task, he]
      rw [hstep, ih (a + 1) (errors + 1) hfail' hok',
        show errors + 1 + m = errors + (m + 1) by omega]

theorem schedule_checkpoint_task_running (outcomes : Nat → Except SuiError Unit)
    (checkpoint : VerifiedCheckpoint) :
    ∀ fuel a errors,
      (∀ j, j < fuel → ∃ e, outcomes (a + j) = .error e) →
      schedule_checkpoint_task outcomes checkpoint fuel a errors = none := by
  intro fuel
  induction fuel with
  | zero =>
      intro a errors hfail
      rfl
  | succ m ih =>
      intro a errors hfail
      obtain ⟨e, he⟩ := hfail 0 (Nat.succ_pos m)
      rw [Nat.add_zero] at he
      have hstep : schedule_checkpoint_task outcomes checkpoint (m + 1)
          a errors =
          schedule_checkpoint_task outcomes checkpoint m (a + 1)
            (errors + 1) := by
        rw [schedule_checkpoint_task, he]
      rw [hstep]
      exact ih (a + 1) (errors + 1) (fun j hj => by
        have := hfail (j + 1) (by omega)
        rwa [show a + (j + 1) = a + 1 + j by omega] at this)

/-- Claim C9: every `execute_checkpoint` error makes the spawned task
retry the whole checkpoint after the fixed backoff with the error counter
incremented, with no retry limit: for any number `k` of leading failures
the task resolves after the first success with exactly the completed
checkpoint and `k` recorded error increments, and while only failures
have been observed it has not resolved at all — the task's value type
`VerifiedCheckpoint` carries no error, so errors never surface past the
task boundary. -/
theorem schedule_checkpoint_task_retries (outcomes : Nat → Except SuiError Unit)
    (checkpoint : VerifiedCheckpoint) (k : Nat)
    (hfail : ∀ j, j < k → ∃ e, outcomes j = .error e)
    (hok : outcomes k = .ok ()) :
    schedule_checkpoint_task outcomes checkpoint (k + 1) 0 0 =
      some (checkpoint, k) ∧
    ∀ fuel, fuel ≤ k →
      schedule_checkpoint_task outcomes checkpoint fuel 0 0 = none := by
  constructor
  · have := schedule_checkpoint_task_ok outcomes checkpoint k 0 0
      (fun j hj => by simpa using hfail j hj) (by simpa using hok)
    simpa using this
  · intro fuel hfuel
    exact schedule_checkpoint_task_running outcomes checkpoint fuel 0 0
      (fun j hj => by simpa using hfail j (by omega))

/-- The attempt outcomes used by the witness of claim C9: two failures,
then success. -/
def c9Outcomes : Nat → Except SuiError Unit := fun j =>
  if j < 2 then .error (.AggregatorError 0) else .ok ()

theorem schedule_checkpoint_task_retries_witness :
    schedule_checkpoint_task c9Outcomes ⟨0, 0, 0, none⟩ 3 0 0 =
      some (⟨0, 0, 0, none⟩, 2) ∧
    schedule_checkpoint_task c9Outcomes ⟨0, 0, 0, none⟩ 2 0 0 = none := by
  have h := schedule_checkpoint_task_retries c9Outcomes ⟨0, 0, 0, none⟩ 2
    (fun j hj => ⟨.AggregatorError 0, by simp [c9Outcomes, hj]⟩)
    (by simp [c9Outcomes])
  exact ⟨h.1, h.2 2 (le_refl 2)⟩
